import Mathlib

/-!
Shallow embedding of KatiesYoutubePlaylister's collection / playlist /
synchronization logic.

Client side (`src/src/types.ts`, `src/src/App.tsx`,
`src/src/components/PlaylistManager.tsx`, `src/src/utils/snapshot.ts`):
the in-memory collection state and the React handlers that mutate it.

Server side (`functions/api/library.ts`): the D1-backed PUT handler with
its merge / replace modes and the empty-payload safety fuse, modelled as a
pure transformation of a relational database value.
-/

namespace Playlister

/-- Client-side video record (`src/types.ts`, `interface Video`). -/
structure Video where
  id : String
  title : String
  thumbnail : String
  duration : String
  channelTitle : String
  publishedAt : String
  url : String
deriving DecidableEq

/-- Client-side playlist record (`src/types.ts`, `interface Playlist`).
`thumbnail` is optional (`thumbnail?: string`). -/
structure Playlist where
  id : String
  name : String
  description : String
  videos : List Video
  createdAt : String
  thumbnail : Option String
deriving DecidableEq

/-- The React state held by `App` (`src/App.tsx`): the `useState` /
`useLocalStorage` cells `videos`, `playlists`, `selectedVideos`,
`currentVideo`, `currentPlaylist`, `currentIndex`, `isPlayerOpen`. -/
structure AppState where
  videos : List Video
  playlists : List Playlist
  selectedVideos : List Video
  currentVideo : Option Video
  currentPlaylist : Option Playlist
  currentIndex : Option Nat
  isPlayerOpen : Bool
deriving DecidableEq

/-- The initial state: empty collections, nothing playing. -/
def initialState : AppState :=
  { videos := [], playlists := [], selectedVideos := [],
    currentVideo := none, currentPlaylist := none, currentIndex := none,
    isPlayerOpen := false }

/-- `handleVideoAdd` (`App.tsx`): append the video unless a video with the
same id is already in the collection. -/
def handleVideoAdd (s : AppState) (video : Video) : AppState :=
  { s with videos :=
      if s.videos.any (fun v => v.id = video.id) then s.videos
      else s.videos ++ [video] }

/-- `handleVideoSelect` (`App.tsx`): append to the selection unless already
selected. -/
def handleVideoSelect (s : AppState) (video : Video) : AppState :=
  { s with selectedVideos :=
      if s.selectedVideos.any (fun v => v.id = video.id) then s.selectedVideos
      else s.selectedVideos ++ [video] }

/-- `handleVideoDeselect` (`App.tsx`). -/
def handleVideoDeselect (s : AppState) (video : Video) : AppState :=
  { s with selectedVideos := s.selectedVideos.filter (fun v => v.id ≠ video.id) }

/-- `handleVideoDelete` (`App.tsx`): remove the video from the master
collection, the selection, and every playlist's sequence; if it is the
currently-playing video, close the player and clear playback state. -/
def handleVideoDelete (s : AppState) (video : Video) : AppState :=
  let s1 : AppState :=
    { s with
      videos := s.videos.filter (fun v => v.id ≠ video.id),
      selectedVideos := s.selectedVideos.filter (fun v => v.id ≠ video.id),
      playlists := s.playlists.map (fun p =>
        { p with videos := p.videos.filter (fun v => v.id ≠ video.id) }) }
  if s.currentVideo.map Video.id = some video.id then
    { s1 with isPlayerOpen := false, currentVideo := none,
              currentPlaylist := none, currentIndex := none }
  else s1

/-- `handleCreatePlaylist` (`App.tsx`): unconditionally append a new
playlist built from the given videos.  The id (`Date.now().toString()`)
and timestamp (`new Date().toISOString()`) are environment inputs, passed
here as `freshId` and `now`. -/
def handleCreatePlaylist (s : AppState) (freshId now : String)
    (name description : String) (vids : List Video) : AppState :=
  { s with playlists := s.playlists ++
      [{ id := freshId, name := name, description := description,
         videos := vids, createdAt := now,
         thumbnail := vids.head?.map Video.thumbnail }] }

/-- `canCreate` (`PlaylistManager.tsx`):
`selectedVideos.length > 0 && name.trim().length > 0`. -/
def canCreate (selectedVideos : List Video) (name : String) : Bool :=
  decide (0 < selectedVideos.length) && decide (0 < name.trim.length)

/-- `handleCreate` (`PlaylistManager.tsx`) composed with the `App.tsx`
callbacks it invokes: refuse when `canCreate` is false; otherwise call
`onCreatePlaylist(name.trim(), description.trim(), selectedVideos)` and
then `onClearSelection()`. -/
def handleCreate (s : AppState) (freshId now : String)
    (name description : String) : AppState :=
  if canCreate s.selectedVideos name then
    let s1 := handleCreatePlaylist s freshId now name.trim description.trim
      s.selectedVideos
    { s1 with selectedVideos := [] }
  else s

/-- `handleReorderPlaylist` (`App.tsx`): replace the playlist's sequence
with `newOrder`; if the currently-playing playlist is the one reordered,
re-sync `currentIndex` (and possibly `currentVideo`). -/
def handleReorderPlaylist (s : AppState) (id : String)
    (newOrder : List Video) : AppState :=
  let s1 : AppState :=
    { s with
      playlists := s.playlists.map (fun p =>
        if p.id = id then { p with videos := newOrder } else p),
      currentPlaylist := s.currentPlaylist.map (fun p =>
        if p.id = id then { p with videos := newOrder } else p) }
  match s.currentPlaylist with
  | some cp =>
    if cp.id = id then
      match s.currentVideo with
      | some cv =>
        match newOrder.findIdx? (fun v => v.id = cv.id) with
        | some idx => { s1 with currentIndex := some idx }
        | none =>
          { s1 with
            currentIndex := if newOrder.length ≠ 0 then some 0 else none,
            currentVideo := newOrder.head? }
      | none =>
        if newOrder.length ≠ 0 then
          { s1 with currentIndex := some 0, currentVideo := newOrder.head? }
        else
          { s1 with currentIndex := none }
    else s1
  | none => s1

/-- `handleNext` (`App.tsx`): advance only when `currentIndex` is strictly
below the last position (`currentIndex < videos.length - 1` in JS, which
for integers is `i + 1 < length`). -/
def handleNext (s : AppState) : AppState :=
  match s.currentPlaylist, s.currentIndex with
  | some p, some i =>
    if i + 1 < p.videos.length then
      { s with currentIndex := some (i + 1), currentVideo := p.videos.get? (i + 1) }
    else s
  | _, _ => s

/-- `handlePrevious` (`App.tsx`): step back only when `currentIndex > 0`. -/
def handlePrevious (s : AppState) : AppState :=
  match s.currentPlaylist, s.currentIndex with
  | some p, some i =>
    if 0 < i then
      { s with currentIndex := some (i - 1), currentVideo := p.videos.get? (i - 1) }
    else s
  | _, _ => s

/-! ## Server side: `functions/api/library.ts`

The three D1 tables are modelled as lists of rows; `videos.id` and
`playlists.id` are primary keys, `playlist_videos` is keyed on
`(playlist_id, position)`. -/

/-- A row of the `videos` table. -/
structure VideoRow where
  id : String
  title : String
  thumbnail : String
  duration : String
  channelTitle : String
  publishedAt : String
deriving DecidableEq

/-- A row of the `playlists` table. -/
structure PlaylistRow where
  id : String
  name : String
  description : String
  createdAt : String
  thumbnail : String
deriving DecidableEq

/-- A row of the `playlist_videos` ordering table. -/
structure PVRow where
  playlist_id : String
  video_id : String
  position : Nat
deriving DecidableEq

/-- The remote store. -/
structure DB where
  videos : List VideoRow
  playlists : List PlaylistRow
  playlist_videos : List PVRow
deriving DecidableEq

/-- A payload video object; every member may be absent. -/
structure VideoIn where
  id : Option String
  title : Option String
  thumbnail : Option String
  duration : Option String
  channelTitle : Option String
  publishedAt : Option String
deriving DecidableEq

/-- An entry of a payload playlist's `videos` array: a bare string id or an
object whose `id` member may be absent. -/
inductive VidRef where
  | vstr (s : String)
  | vobj (id : Option String)
deriving DecidableEq

/-- `typeof vv === 'string' ? vv : vv?.id`. -/
def VidRef.idOf : VidRef → Option String
  | .vstr s => some s
  | .vobj i => i

/-- A payload playlist object; `videos = none` models a missing (or
non-array) `videos` member. -/
structure PlaylistIn where
  id : Option String
  name : Option String
  description : Option String
  createdAt : Option String
  thumbnail : Option String
  videos : Option (List VidRef)
deriving DecidableEq

/-- The parsed PUT body; `none` members model absent (or non-array)
fields. -/
structure PutBody where
  mode : Option String
  videos : Option (List VideoIn)
  playlists : Option (List PlaylistIn)
deriving DecidableEq

/-- The two persistence modes. -/
inductive Mode where
  | merge
  | replace
deriving DecidableEq

/-- `body?.mode === 'replace' ? 'replace' : 'merge'`: anything other than
the exact string `"replace"` is merge. -/
def modeOf (m : Option String) : Mode :=
  if m = some "replace" then Mode.replace else Mode.merge

/-- Row built by the video INSERT/UPDATE statements (`?? ''` defaults). -/
def mkVideoRow (i : String) (v : VideoIn) : VideoRow :=
  { id := i, title := v.title.getD "", thumbnail := v.thumbnail.getD "",
    duration := v.duration.getD "", channelTitle := v.channelTitle.getD "",
    publishedAt := v.publishedAt.getD "" }

/-- Row built by the playlist INSERT/UPDATE statements (`?? ''` defaults). -/
def mkPlaylistRow (i : String) (p : PlaylistIn) : PlaylistRow :=
  { id := i, name := p.name.getD "", description := p.description.getD "",
    createdAt := p.createdAt.getD "", thumbnail := p.thumbnail.getD "" }

/-- The ordering rows inserted for one playlist: positions `0, 1, …` over
the entries with a truthy id (`if (!vid) continue;` — `pos` only
increments on insert). -/
def pvRows (pid : String) (vids : List VidRef) : List PVRow :=
  ((vids.filterMap (fun vv => match vv.idOf with
      | some s => if s ≠ "" then some s else none
      | none => none)).enum).map (fun x => ⟨pid, x.2, x.1⟩)

/-- Replace-mode de-duplication of payload videos (`uniq` record): first
occurrence of each truthy id wins, entries with a falsy id are dropped.
(The JS object iterates string keys in insertion order; integer-like keys
would be reordered numerically first, which no claim exercises.) -/
def dedupeVideos : List VideoIn → List String → List VideoIn
  | [], _ => []
  | v :: rest, seen =>
    match v.id with
    | some i =>
      if i ≠ "" ∧ ¬ seen.contains i then v :: dedupeVideos rest (i :: seen)
      else dedupeVideos rest seen
    | none => dedupeVideos rest seen

/-- The truthy ids among the payload playlists (the entries the loops keep). -/
def keptPlaylistIds (ps : List PlaylistIn) : List String :=
  ps.filterMap (fun p => match p.id with
    | some i => if i ≠ "" then some i else none
    | none => none)

/-- The database produced by the replace branch: wipe all three tables,
insert the de-duplicated videos, the kept playlists, and their ordering
rows. -/
def replacedDB (videos : List VideoIn) (playlists : List PlaylistIn) : DB :=
  { videos := (dedupeVideos videos []).map (fun v => mkVideoRow (v.id.getD "") v),
    playlists := playlists.filterMap (fun p => match p.id with
      | some i => if i ≠ "" then some (mkPlaylistRow i p) else none
      | none => none),
    playlist_videos := playlists.foldl (fun acc p => match p.id with
      | some i =>
        if i ≠ "" then
          match p.videos with
          | some vids => acc ++ pvRows i vids
          | none => acc
        else acc
      | none => acc) [] }

/-- Merge-mode video upsert: `INSERT OR IGNORE` followed by `UPDATE` — net
effect: overwrite the non-key columns of the row with this id, or append a
fresh row; entries with a falsy id are skipped. -/
def upsertVideo (tbl : List VideoRow) (v : VideoIn) : List VideoRow :=
  match v.id with
  | some i =>
    if i = "" then tbl
    else if tbl.any (fun r => r.id = i) then
      tbl.map (fun r => if r.id = i then mkVideoRow i v else r)
    else tbl ++ [mkVideoRow i v]
  | none => tbl

/-- Merge-mode playlist-row upsert, same `INSERT OR IGNORE` + `UPDATE`
shape. -/
def upsertPlaylistRow (tbl : List PlaylistRow) (i : String) (p : PlaylistIn) :
    List PlaylistRow :=
  if tbl.any (fun r => r.id = i) then
    tbl.map (fun r => if r.id = i then mkPlaylistRow i p else r)
  else tbl ++ [mkPlaylistRow i p]

/-- One iteration of the merge-mode video loop. -/
def mergeVideoStep (db : DB) (v : VideoIn) : DB :=
  { db with videos := upsertVideo db.videos v }

/-- One iteration of the merge-mode playlist loop: upsert the playlist row
and, only when the entry carries a `videos` array, delete that playlist's
ordering rows and insert the new ones. -/
def mergePlaylistStep (db : DB) (p : PlaylistIn) : DB :=
  match p.id with
  | some i =>
    if i = "" then db
    else
      let db1 := { db with playlists := upsertPlaylistRow db.playlists i p }
      match p.videos with
      | some vids =>
        { db1 with playlist_videos :=
            db1.playlist_videos.filter (fun r => r.playlist_id ≠ i) ++ pvRows i vids }
      | none => db1
  | none => db

/-- The merge branch of `onRequestPut`. -/
def mergePut (db : DB) (videos : List VideoIn) (playlists : List PlaylistIn) : DB :=
  playlists.foldl mergePlaylistStep (videos.foldl mergeVideoStep db)

/-- Response shapes of the PUT handler. -/
inductive PutResult where
  /-- safety fuse: `{ ok:false, ignored:true, reason:… }` -/
  | ignored
  /-- `{ ok:true, nochange:true }` -/
  | nochange
  | okReplace
  | okMerge
  /-- an exception reached the outer catch (500 response) -/
  | error500
deriving DecidableEq

/-- `onRequestPut` (`library.ts`) as a pure transformation of the database
value, paired with the response shape.  The replace branch runs as one
atomic D1 batch: duplicate truthy playlist ids in the payload violate the
`playlists` primary key, rolling the whole batch back (500, database
unchanged); payload videos cannot conflict because they are de-duplicated
first. -/
def onRequestPut (db : DB) (body : PutBody) : DB × PutResult :=
  let mode := modeOf body.mode
  let videos := body.videos.getD []
  let playlists := body.playlists.getD []
  if mode ≠ Mode.replace ∧ videos = [] ∧ playlists = [] then
    if 0 < db.videos.length + db.playlists.length then (db, PutResult.ignored)
    else (db, PutResult.nochange)
  else if mode = Mode.replace then
    if (keptPlaylistIds playlists).Nodup then
      (replacedDB videos playlists, PutResult.okReplace)
    else (db, PutResult.error500)
  else
    (mergePut db videos playlists, PutResult.okMerge)

/-! ## Client remote calls: `src/src/utils/snapshot.ts` -/

/-- Serialization of a client video into the PUT payload. -/
def encodeVideo (v : Video) : VideoIn :=
  { id := some v.id, title := some v.title, thumbnail := some v.thumbnail,
    duration := some v.duration, channelTitle := some v.channelTitle,
    publishedAt := some v.publishedAt }

/-- Serialization of a client playlist: its `videos` member is always
present — an array of video objects each carrying its `id`. -/
def encodePlaylist (p : Playlist) : PlaylistIn :=
  { id := some p.id, name := some p.name, description := some p.description,
    createdAt := some p.createdAt, thumbnail := p.thumbnail,
    videos := some (p.videos.map (fun v => VidRef.vobj (some v.id))) }

/-- `saveRemote` (`snapshot.ts`): the debounced background push sends
`JSON.stringify({ version: 1, videos, playlists })` — no `mode` member. -/
def saveRemoteBody (videos : List Video) (playlists : List Playlist) : PutBody :=
  { mode := none, videos := some (videos.map encodeVideo),
    playlists := some (playlists.map encodePlaylist) }

/-! ## The on-load restore effect (`App.tsx`, remote-first variant) -/

/-- The JSON value `loadRemote` resolves with on a 2xx response: the parsed
body, whose `videos` / `playlists` members may be missing — `loadRemote`
casts the parsed JSON without validating it. -/
structure RemoteJson where
  videos : Option (List Video)
  playlists : Option (List Playlist)
deriving DecidableEq

/-- Mirror payload as read by `readMirrorFromLocalStorage`. -/
structure MirrorPayload where
  videos : List Video
  playlists : List Playlist
deriving DecidableEq

/-- Outcome of the on-load restore effect. -/
inductive RestoreOutcome where
  /-- `setVideos(remote.videos); setPlaylists(remote.playlists)` — the
  `playlists` member is adopted as-is, possibly absent. -/
  | adoptRemote (videos : List Video) (playlists : Option (List Playlist))
  | adoptMirror (m : MirrorPayload)
  /-- fell through both sources without adopting anything -/
  | noData
  /-- a thrown TypeError (reading `.length` of a missing member) reached
  the catch: the effect stops with a console warning, adopting nothing -/
  | aborted
deriving DecidableEq

/-- The mirror fallback: adopt the mirror when present. -/
def mirrorStep : Option MirrorPayload → RestoreOutcome
  | some m => RestoreOutcome.adoptMirror m
  | none => RestoreOutcome.noData

/-- The restore effect (`App.tsx`):
`if (remote && (remote.videos.length || remote.playlists.length))` adopts
the remote snapshot, otherwise the mirror is consulted.  Reading `.length`
of a missing member throws, and the surrounding try/catch swallows the
exception without consulting the mirror. -/
def restoreOutcome (remote : Option RemoteJson) (mirror : Option MirrorPayload) :
    RestoreOutcome :=
  match remote with
  | some rj =>
    match rj.videos with
    | none => RestoreOutcome.aborted
    | some vs =>
      if vs.length ≠ 0 then RestoreOutcome.adoptRemote vs rj.playlists
      else
        match rj.playlists with
        | none => RestoreOutcome.aborted
        | some ps =>
          if ps.length ≠ 0 then RestoreOutcome.adoptRemote vs (some ps)
          else mirrorStep mirror
  | none => mirrorStep mirror

/-! ## Referential integrity (claim C9) -/

/-- Boolean referential-integrity check: every video referenced by any
playlist is present (by id) in the master collection. -/
def refIntegrity (s : AppState) : Bool :=
  s.playlists.all (fun p => p.videos.all (fun v => s.videos.any (fun w => w.id = v.id)))

/-- The collection operations named by the invariant claim, as a step
relation on app states.  The side conditions record the claim's provisos:
playlists are created from a selection of existing videos, and a reorder's
`newOrder` is drawn from the playlist being reordered. -/
inductive Step : AppState → AppState → Prop where
  | add (s : AppState) (v : Video) : Step s (handleVideoAdd s v)
  | create (s : AppState) (freshId now name description : String)
      (vids : List Video) (hsel : ∀ v ∈ vids, ∃ w ∈ s.videos, w.id = v.id) :
      Step s (handleCreatePlaylist s freshId now name description vids)
  | reorder (s : AppState) (id : String) (newOrder : List Video) (p : Playlist)
      (hp : p ∈ s.playlists) (hpid : p.id = id)
      (hsub : ∀ v ∈ newOrder, v ∈ p.videos) :
      Step s (handleReorderPlaylist s id newOrder)
  | delete (s : AppState) (v : Video) : Step s (handleVideoDelete s v)

/-! ## Shared helper lemmas -/

theorem handleVideoDelete_videos (s : AppState) (video : Video) :
    (handleVideoDelete s video).videos = s.videos.filter (fun v => v.id ≠ video.id) := by
  unfold handleVideoDelete
  split <;> rfl

theorem handleVideoDelete_selected (s : AppState) (video : Video) :
    (handleVideoDelete s video).selectedVideos =
      s.selectedVideos.filter (fun v => v.id ≠ video.id) := by
  unfold handleVideoDelete
  split <;> rfl

theorem handleVideoDelete_playlists (s : AppState) (video : Video) :
    (handleVideoDelete s video).playlists = s.playlists.map (fun p =>
      { p with videos := p.videos.filter (fun v => v.id ≠ video.id) }) := by
  unfold handleVideoDelete
  split <;> rfl

theorem empty_replacedDB : replacedDB [] [] = ⟨[], [], []⟩ := rfl

/-- Claim C1: a PUT whose payload has empty `videos` and `playlists`
arrays is silently ignored (no-op acknowledgment, no rows deleted) when
the remote store already holds at least one video or playlist row, while
the same empty payload with `mode:"replace"` wipes all `videos`,
`playlists` and `playlist_videos` rows. -/
theorem put_empty_payload_fuse_and_replace
    (db : DB) (fuseBody replBody : PutBody)
    (h1v : fuseBody.videos.getD [] = [])
    (h1p : fuseBody.playlists.getD [] = [])
    (h1m : fuseBody.mode ≠ some "replace")
    (hdb : 0 < db.videos.length + db.playlists.length)
    (h2v : replBody.videos.getD [] = [])
    (h2p : replBody.playlists.getD [] = [])
    (h2m : replBody.mode = some "replace") :
    onRequestPut db fuseBody = (db, PutResult.ignored) ∧
    onRequestPut db replBody = (⟨[], [], []⟩, PutResult.okReplace) := by
  constructor
  · unfold onRequestPut modeOf
    simp [h1v, h1p, h1m, hdb]
  · unfold onRequestPut modeOf
    simp [h2v, h2p, h2m, empty_replacedDB, keptPlaylistIds]

def rowV : VideoRow := ⟨"v", "", "", "", "", ""⟩

def fuseDB : DB := ⟨[rowV], [], []⟩

def emptyNoModeBody : PutBody := ⟨none, some [], some []⟩

def emptyReplaceBody : PutBody := ⟨some "replace", some [], some []⟩

theorem put_empty_payload_fuse_and_replace_witness :
    onRequestPut fuseDB emptyNoModeBody = (fuseDB, PutResult.ignored) ∧
    onRequestPut fuseDB emptyReplaceBody = (⟨[], [], []⟩, PutResult.okReplace) :=
  put_empty_payload_fuse_and_replace fuseDB emptyNoModeBody emptyReplaceBody
    (by decide) (by decide) (by decide) (by decide) (by decide) (by decide)
    (by decide)

/-! ## Claim C7 -/

def vidA : Video := ⟨"A", "", "", "", "", "", ""⟩

def vidB : Video := ⟨"B", "", "", "", "", "", ""⟩

def playP : Playlist := ⟨"P", "P", "", [vidA, vidB], "", none⟩

def playingState : AppState :=
  { videos := [vidA, vidB], playlists := [playP], selectedVideos := [],
    currentVideo := some vidA, currentPlaylist := some playP,
    currentIndex := some 0, isPlayerOpen := true }

/-- Claim C7 counterexample: with playlist `[A, B]` playing at `A`
(index 0), deleting `A` leaves a further item (`B`), yet playback does not
advance to it — the player is closed and all playback state cleared. -/
theorem delete_playing_video_stops_counterexample :
    (handleVideoDelete playingState vidA).isPlayerOpen = false ∧
    (handleVideoDelete playingState vidA).currentVideo = none ∧
    (handleVideoDelete playingState vidA).currentVideo ≠ some vidB := by
  decide

/-- Claim C7 (amended): whenever the deleted video is the currently-playing
one, playback always stops — the player closes and the playing video,
playlist and index are all cleared — regardless of whether further items
remain in the current playlist. -/
theorem delete_playing_video_always_stops
    (s : AppState) (video cv : Video)
    (hcv : s.currentVideo = some cv) (hid : cv.id = video.id) :
    (handleVideoDelete s video).isPlayerOpen = false ∧
    (handleVideoDelete s video).currentVideo = none ∧
    (handleVideoDelete s video).currentPlaylist = none ∧
    (handleVideoDelete s video).currentIndex = none := by
  unfold handleVideoDelete
  simp [hcv, hid]

theorem delete_playing_video_always_stops_witness :
    (handleVideoDelete playingState vidA).isPlayerOpen = false ∧
    (handleVideoDelete playingState vidA).currentVideo = none ∧
    (handleVideoDelete playingState vidA).currentPlaylist = none ∧
    (handleVideoDelete playingState vidA).currentIndex = none :=
  delete_playing_video_always_stops playingState vidA vidA (by decide) (by decide)

/-! ## Claim C8 -/

/-- Claim C8: with a playlist playing at an in-bounds index, `next()`
advances the index by one (and the displayed video to that item) when
`index + 1` is within bounds, and at the last position it leaves the state
unchanged (the code's consistent no-wraparound policy), so the index never
leaves the playlist's bounds; `previous()` is symmetric. -/
theorem next_previous_bounds
    (s : AppState) (p : Playlist) (i : Nat)
    (hp : s.currentPlaylist = some p) (hi : s.currentIndex = some i)
    (hlt : i < p.videos.length) :
    (i + 1 < p.videos.length →
      (handleNext s).currentIndex = some (i + 1) ∧
      (handleNext s).currentVideo = p.videos.get? (i + 1)) ∧
    (i + 1 = p.videos.length → handleNext s = s) ∧
    (∀ j, (handleNext s).currentIndex = some j → j < p.videos.length) ∧
    (0 < i →
      (handlePrevious s).currentIndex = some (i - 1) ∧
      (handlePrevious s).currentVideo = p.videos.get? (i - 1)) ∧
    (i = 0 → handlePrevious s = s) ∧
    (∀ j, (handlePrevious s).currentIndex = some j → j < p.videos.length) := by
  refine ⟨fun h => ?_, fun h => ?_, fun j hj => ?_, fun h => ?_, fun h => ?_,
    fun j hj => ?_⟩
  · constructor <;> simp [handleNext, hp, hi, h]
  · have hnot : ¬ i + 1 < p.videos.length := by omega
    simp [handleNext, hp, hi, hnot]
  · by_cases h : i + 1 < p.videos.length
    · simp [handleNext, hp, hi, h] at hj
      omega
    · simp [handleNext, hp, hi, h] at hj
      omega
  · constructor <;> simp [handlePrevious, hp, hi, h]
  · subst h
    simp [handlePrevious, hp, hi]
  · by_cases h : 0 < i
    · simp [handlePrevious, hp, hi, h] at hj
      omega
    · simp [handlePrevious, hp, hi, h] at hj
      omega

theorem next_previous_bounds_witness :
    (0 + 1 < playP.videos.length →
      (handleNext playingState).currentIndex = some (0 + 1) ∧
      (handleNext playingState).currentVideo = playP.videos.get? (0 + 1)) ∧
    (0 + 1 = playP.videos.length → handleNext playingState = playingState) ∧
    (∀ j, (handleNext playingState).currentIndex = some j →
      j < playP.videos.length) ∧
    (0 < 0 →
      (handlePrevious playingState).currentIndex = some (0 - 1) ∧
      (handlePrevious playingState).currentVideo = playP.videos.get? (0 - 1)) ∧
    (0 = 0 → handlePrevious playingState = playingState) ∧
    (∀ j, (handlePrevious playingState).currentIndex = some j →
      j < playP.videos.length) :=
  next_previous_bounds playingState playP 0 (by decide) (by decide) (by decide)

/-! ## Claim C4 -/

theorem map_id_filter_ne (l : List Video) (x : String) :
    (l.filter (fun v => v.id ≠ x)).map Video.id =
      (l.map Video.id).filter (fun i => i ≠ x) := by
  rw [List.filter_map]
  rfl

/-- Claim C4: `deleteVideoGlobally(A)` removes `A` from the master video
collection, from the selection set and from every playlist's ordered
sequence, preserving the relative order of the remaining ids (each
playlist's id sequence becomes its old sequence with every occurrence of
`A` filtered out, other videos surviving untouched). -/
theorem delete_video_cascades (s : AppState) (video : Video) :
    video.id ∉ (handleVideoDelete s video).videos.map Video.id ∧
    video.id ∉ (handleVideoDelete s video).selectedVideos.map Video.id ∧
    (∀ p ∈ (handleVideoDelete s video).playlists,
      video.id ∉ p.videos.map Video.id) ∧
    ((handleVideoDelete s video).playlists.map (fun p => p.videos.map Video.id) =
      s.playlists.map (fun p =>
        (p.videos.map Video.id).filter (fun i => i ≠ video.id))) ∧
    (∀ v ∈ s.videos, v.id ≠ video.id → v ∈ (handleVideoDelete s video).videos) := by
  refine ⟨?_, ?_, ?_, ?_, ?_⟩
  · rw [handleVideoDelete_videos, map_id_filter_ne]
    simp
  · rw [handleVideoDelete_selected, map_id_filter_ne]
    simp
  · rw [handleVideoDelete_playlists]
    intro p hp
    rw [List.mem_map] at hp
    obtain ⟨q, hq, rfl⟩ := hp
    rw [map_id_filter_ne]
    simp
  · rw [handleVideoDelete_playlists, List.map_map]
    refine List.map_congr_left (fun q hq => ?_)
    exact map_id_filter_ne q.videos video.id
  · intro v hv hne
    rw [handleVideoDelete_videos]
    simp [List.mem_filter, hv, hne]

def abState : AppState :=
  { videos := [vidA, vidB], playlists := [playP], selectedVideos := [vidA],
    currentVideo := none, currentPlaylist := none, currentIndex := none,
    isPlayerOpen := false }

theorem delete_video_cascades_witness :
    vidA.id ∉ (handleVideoDelete abState vidA).videos.map Video.id ∧
    vidA.id ∉ (handleVideoDelete abState vidA).selectedVideos.map Video.id ∧
    (∀ p ∈ (handleVideoDelete abState vidA).playlists,
      vidA.id ∉ p.videos.map Video.id) ∧
    ((handleVideoDelete abState vidA).playlists.map (fun p => p.videos.map Video.id) =
      abState.playlists.map (fun p =>
        (p.videos.map Video.id).filter (fun i => i ≠ vidA.id))) ∧
    (∀ v ∈ abState.videos, v.id ≠ vidA.id →
      v ∈ (handleVideoDelete abState vidA).videos) :=
  delete_video_cascades abState vidA

/-! ## Claim C5 -/

theorem length_pos_iff_ne_empty (s : String) : 0 < s.length ↔ s ≠ "" := by
  cases s with
  | mk data =>
    have hd : ("" : String).data = [] := rfl
    rw [ne_eq, String.ext_iff, hd]
    simpa using List.length_pos (l := data)

theorem canCreate_iff (sel : List Video) (name : String) :
    canCreate sel name = true ↔ sel ≠ [] ∧ name.trim ≠ "" := by
  unfold canCreate
  rw [Bool.and_eq_true, decide_eq_true_iff, decide_eq_true_iff,
    List.length_pos, length_pos_iff_ne_empty]

/-- Claim C5: `create(name, description, videoIds)` is a refused no-op when
the selection is empty or the name is blank (trims to empty); otherwise it
appends exactly one new playlist carrying the fresh id and current
timestamp whose ordered sequence is exactly the selection in its given
order, and fetching the created playlist by its id yields exactly the
selected ids in that order. -/
theorem create_playlist_spec
    (s : AppState) (freshId now name description : String) :
    (s.selectedVideos = [] ∨ name.trim = "" →
      handleCreate s freshId now name description = s) ∧
    (s.selectedVideos ≠ [] → name.trim ≠ "" →
      (handleCreate s freshId now name description).playlists =
        s.playlists ++
          [{ id := freshId, name := name.trim, description := description.trim,
             videos := s.selectedVideos, createdAt := now,
             thumbnail := s.selectedVideos.head?.map Video.thumbnail }] ∧
      (freshId ∉ s.playlists.map Playlist.id →
        ((handleCreate s freshId now name description).playlists.find?
            (fun p => p.id = freshId)).map (fun p => p.videos.map Video.id) =
          some (s.selectedVideos.map Video.id))) := by
  constructor
  · intro h
    have hcc : ¬ canCreate s.selectedVideos name = true := by
      rw [canCreate_iff]
      rcases h with h | h
      · exact fun hc => hc.1 h
      · exact fun hc => hc.2 h
    unfold handleCreate
    simp only [Bool.not_eq_true] at hcc
    rw [if_neg (by simp [hcc])]
  · intro h1 h2
    have hcc : canCreate s.selectedVideos name = true :=
      (canCreate_iff s.selectedVideos name).mpr ⟨h1, h2⟩
    have hpl : (handleCreate s freshId now name description).playlists =
        s.playlists ++
          [{ id := freshId, name := name.trim, description := description.trim,
             videos := s.selectedVideos, createdAt := now,
             thumbnail := s.selectedVideos.head?.map Video.thumbnail }] := by
      unfold handleCreate handleCreatePlaylist
      rw [if_pos hcc]
    refine ⟨hpl, fun hfresh => ?_⟩
    rw [hpl]
    have hnone : s.playlists.find? (fun p => p.id = freshId) = none := by
      rw [List.find?_eq_none]
      intro p hp
      simp only [decide_eq_true_iff]
      intro hid
      exact hfresh (List.mem_map.mpr ⟨p, hp, hid⟩)
    rw [List.find?_append, hnone]
    simp

def createBase : AppState :=
  { videos := [vidA, vidB], playlists := [], selectedVideos := [vidA, vidB],
    currentVideo := none, currentPlaylist := none, currentIndex := none,
    isPlayerOpen := false }

theorem create_playlist_spec_witness :
    (createBase.selectedVideos = [] ∨ ("My List".trim : String) = "" →
      handleCreate createBase "1700000000000" "2026-10-11" "My List" "desc" =
        createBase) ∧
    (createBase.selectedVideos ≠ [] → ("My List".trim : String) ≠ "" →
      (handleCreate createBase "1700000000000" "2026-10-11" "My List" "desc").playlists =
        createBase.playlists ++
          [{ id := "1700000000000", name := "My List".trim,
             description := "desc".trim, videos := createBase.selectedVideos,
             createdAt := "2026-10-11",
             thumbnail := createBase.selectedVideos.head?.map Video.thumbnail }] ∧
      ("1700000000000" ∉ createBase.playlists.map Playlist.id →
        ((handleCreate createBase "1700000000000" "2026-10-11" "My List" "desc").playlists.find?
            (fun p => p.id = "1700000000000")).map (fun p => p.videos.map Video.id) =
          some (createBase.selectedVideos.map Video.id))) :=
  create_playlist_spec createBase "1700000000000" "2026-10-11" "My List" "desc"

/-! ## Claim C3 -/

/-- Claim C3: reordering the playlist that is currently playing re-syncs
playback — if the playing video's id occurs in `newOrder` the index moves
to its (first) new index with the displayed video unchanged; if it does
not occur, the index becomes 0 when `newOrder` is non-empty (displaying
the new first item), and with an empty `newOrder` the playing video and
index are both cleared. -/
theorem reorder_resyncs_playback
    (s : AppState) (pid : String) (newOrder : List Video)
    (cp : Playlist) (cv : Video)
    (hcp : s.currentPlaylist = some cp) (hpid : cp.id = pid)
    (hcv : s.currentVideo = some cv) :
    (cv.id ∈ newOrder.map Video.id →
      (handleReorderPlaylist s pid newOrder).currentVideo = some cv ∧
      ∃ i, (handleReorderPlaylist s pid newOrder).currentIndex = some i ∧
        i < newOrder.length ∧
        (newOrder.map Video.id).get? i = some cv.id ∧
        ∀ j, j < i → (newOrder.map Video.id).get? j ≠ some cv.id) ∧
    (cv.id ∉ newOrder.map Video.id → newOrder ≠ [] →
      (handleReorderPlaylist s pid newOrder).currentIndex = some 0 ∧
      (handleReorderPlaylist s pid newOrder).currentVideo = newOrder.head?) ∧
    (cv.id ∉ newOrder.map Video.id → newOrder = [] →
      (handleReorderPlaylist s pid newOrder).currentIndex = none ∧
      (handleReorderPlaylist s pid newOrder).currentVideo = none) := by
  cases hf : newOrder.findIdx? (fun v => v.id = cv.id) with
  | some idx =>
    obtain ⟨hlen, hpred, hbefore⟩ := List.findIdx?_eq_some_iff_getElem.mp hf
    have hmem : cv.id ∈ newOrder.map Video.id := by
      rw [List.mem_map]
      exact ⟨newOrder[idx], List.getElem_mem hlen,
        by simpa using hpred⟩
    refine ⟨fun _ => ?_, fun hno _ => absurd hmem hno, fun hno _ => absurd hmem hno⟩
    constructor
    · simp [handleReorderPlaylist, hcp, hcv, hpid, hf]
    · refine ⟨idx, ?_, hlen, ?_, ?_⟩
      · simp [handleReorderPlaylist, hcp, hcv, hpid, hf]
      · rw [List.get?_eq_getElem?, List.getElem?_map,
          List.getElem?_eq_getElem hlen]
        simpa using hpred
      · intro j hj
        rw [List.get?_eq_getElem?, List.getElem?_map,
          List.getElem?_eq_getElem (Nat.lt_trans hj hlen)]
        have := hbefore j hj
        simpa using this
  | none =>
    have hnomem : cv.id ∉ newOrder.map Video.id := by
      rw [List.findIdx?_eq_none_iff] at hf
      rw [List.mem_map]
      rintro ⟨v, hv, hid⟩
      have := hf v hv
      simp [hid] at this
    refine ⟨fun hmem => absurd hmem hnomem, fun _ hne => ?_, fun _ heq => ?_⟩
    · have hlen : newOrder.length ≠ 0 := by
        simpa [List.length_eq_zero] using hne
      constructor <;> simp [handleReorderPlaylist, hcp, hcv, hpid, hf, hlen]
    · subst heq
      constructor <;> simp [handleReorderPlaylist, hcp, hcv, hpid, hf]

def reorderState : AppState :=
  { videos := [vidA, vidB], playlists := [playP], selectedVideos := [],
    currentVideo := some vidB, currentPlaylist := some playP,
    currentIndex := some 1, isPlayerOpen := true }

theorem reorder_resyncs_playback_witness :
    (vidB.id ∈ [vidB, vidA].map Video.id →
      (handleReorderPlaylist reorderState "P" [vidB, vidA]).currentVideo = some vidB ∧
      ∃ i, (handleReorderPlaylist reorderState "P" [vidB, vidA]).currentIndex = some i ∧
        i < ([vidB, vidA] : List Video).length ∧
        (([vidB, vidA] : List Video).map Video.id).get? i = some vidB.id ∧
        ∀ j, j < i →
          (([vidB, vidA] : List Video).map Video.id).get? j ≠ some vidB.id) ∧
    (vidB.id ∉ [vidB, vidA].map Video.id → ([vidB, vidA] : List Video) ≠ [] →
      (handleReorderPlaylist reorderState "P" [vidB, vidA]).currentIndex = some 0 ∧
      (handleReorderPlaylist reorderState "P" [vidB, vidA]).currentVideo =
        ([vidB, vidA] : List Video).head?) ∧
    (vidB.id ∉ [vidB, vidA].map Video.id → ([vidB, vidA] : List Video) = [] →
      (handleReorderPlaylist reorderState "P" [vidB, vidA]).currentIndex = none ∧
      (handleReorderPlaylist reorderState "P" [vidB, vidA]).currentVideo = none) :=
  reorder_resyncs_playback reorderState "P" [vidB, vidA] playP vidB
    (by decide) (by decide) (by decide)

/-! ## Claim C6 -/

def mirror0 : MirrorPayload := ⟨[vidA], []⟩

/-- Claim C6 counterexample: a malformed remote payload (missing both
`videos` and `playlists` arrays) does not fall back to the local mirror —
the thrown TypeError aborts the restore effect, so the present mirror is
never adopted. -/
theorem restore_malformed_counterexample :
    restoreOutcome (some ⟨none, none⟩) (some mirror0) = RestoreOutcome.aborted ∧
    restoreOutcome (some ⟨none, none⟩) (some mirror0) ≠
      RestoreOutcome.adoptMirror mirror0 := by
  decide

/-- Claim C6 (amended): on start the loader adopts the remote snapshot when
it is well-formed and non-empty, otherwise (well-formed empty remote, or
no remote response) adopts the local mirror when present, otherwise starts
with nothing; but a malformed remote payload (missing the expected
`videos`/`playlists` arrays) aborts the restore with a warning instead of
falling back — the mirror is only consulted when `loadRemote` returned
null or a well-formed empty snapshot. -/
theorem restore_preference_chain
    (mirror : Option MirrorPayload) (vs : List Video) (ps : List Playlist) :
    (restoreOutcome none mirror = mirrorStep mirror) ∧
    (∀ m, mirror = some m → mirrorStep mirror = RestoreOutcome.adoptMirror m) ∧
    (mirror = none → mirrorStep mirror = RestoreOutcome.noData) ∧
    (vs ≠ [] ∨ ps ≠ [] →
      restoreOutcome (some ⟨some vs, some ps⟩) mirror =
        RestoreOutcome.adoptRemote vs (some ps)) ∧
    (vs = [] → ps = [] →
      restoreOutcome (some ⟨some vs, some ps⟩) mirror = mirrorStep mirror) ∧
    (restoreOutcome (some ⟨none, none⟩) mirror = RestoreOutcome.aborted) ∧
    (restoreOutcome (some ⟨some [], none⟩) mirror = RestoreOutcome.aborted) := by
  refine ⟨rfl, fun m hm => by rw [hm]; rfl, fun hm => by rw [hm]; rfl,
    fun h => ?_, fun hv hp => ?_, rfl, by simp [restoreOutcome]⟩
  · rcases h with h | h
    · have : vs.length ≠ 0 := by simpa [List.length_eq_zero] using h
      simp [restoreOutcome, this]
    · have hp : ps.length ≠ 0 := by simpa [List.length_eq_zero] using h
      by_cases hv : vs.length ≠ 0
      · simp [restoreOutcome, hv]
      · simp only [ne_eq, Decidable.not_not] at hv
        simp [restoreOutcome, hv, hp]
  · subst hv
    subst hp
    simp [restoreOutcome]

theorem restore_preference_chain_witness :
    (restoreOutcome none (some mirror0) = mirrorStep (some mirror0)) ∧
    (∀ m, some mirror0 = some m →
      mirrorStep (some mirror0) = RestoreOutcome.adoptMirror m) ∧
    (some mirror0 = none → mirrorStep (some mirror0) = RestoreOutcome.noData) ∧
    (([vidA] : List Video) ≠ [] ∨ ([] : List Playlist) ≠ [] →
      restoreOutcome (some ⟨some [vidA], some []⟩) (some mirror0) =
        RestoreOutcome.adoptRemote [vidA] (some [])) ∧
    (([vidA] : List Video) = [] → ([] : List Playlist) = [] →
      restoreOutcome (some ⟨some [vidA], some []⟩) (some mirror0) =
        mirrorStep (some mirror0)) ∧
    (restoreOutcome (some ⟨none, none⟩) (some mirror0) = RestoreOutcome.aborted) ∧
    (restoreOutcome (some ⟨some [], none⟩) (some mirror0) = RestoreOutcome.aborted) :=
  restore_preference_chain (some mirror0) [vidA] []

/-! ## Claim C9 -/

theorem refIntegrity_iff (s : AppState) :
    refIntegrity s = true ↔
      ∀ p ∈ s.playlists, ∀ v ∈ p.videos, ∃ w ∈ s.videos, w.id = v.id := by
  simp [refIntegrity, List.all_eq_true, List.any_eq_true]

theorem handleReorderPlaylist_playlists (s : AppState) (id : String)
    (newOrder : List Video) :
    (handleReorderPlaylist s id newOrder).playlists =
      s.playlists.map (fun p =>
        if p.id = id then { p with videos := newOrder } else p) := by
  unfold handleReorderPlaylist
  cases s.currentPlaylist with
  | none => rfl
  | some cp =>
    dsimp only
    split
    · cases s.currentVideo with
      | none =>
        dsimp only
        split <;> rfl
      | some cv =>
        dsimp only
        cases newOrder.findIdx? (fun v => v.id = cv.id) <;> rfl
    · rfl

theorem handleReorderPlaylist_videos (s : AppState) (id : String)
    (newOrder : List Video) :
    (handleReorderPlaylist s id newOrder).videos = s.videos := by
  unfold handleReorderPlaylist
  cases s.currentPlaylist with
  | none => rfl
  | some cp =>
    dsimp only
    split
    · cases s.currentVideo with
      | none =>
        dsimp only
        split <;> rfl
      | some cv =>
        dsimp only
        cases newOrder.findIdx? (fun v => v.id = cv.id) <;> rfl
    · rfl

/-- Claim C9: referential integrity — every video id referenced by any
playlist refers to a video present in the master collection — holds in the
initial empty state and is preserved by adding a video, creating a
playlist from a selection of existing videos, reordering a playlist with a
`newOrder` drawn from that playlist, and deleting a video globally. -/
theorem ref_integrity_invariant :
    refIntegrity initialState = true ∧
    ∀ s s', Step s s' → refIntegrity s = true → refIntegrity s' = true := by
  constructor
  · rfl
  · intro s s' hstep hinv
    rw [refIntegrity_iff] at hinv ⊢
    cases hstep with
    | add v =>
      intro p hp w hw
      have hpl : (handleVideoAdd s v).playlists = s.playlists := rfl
      rw [hpl] at hp
      obtain ⟨u, hu, hid⟩ := hinv p hp w hw
      refine ⟨u, ?_, hid⟩
      unfold handleVideoAdd
      dsimp only
      split
      · exact hu
      · exact List.mem_append_left _ hu
    | create freshId now name description vids hsel =>
      intro p hp w hw
      unfold handleCreatePlaylist at hp
      dsimp only at hp
      rw [List.mem_append] at hp
      rcases hp with hp | hp
      · exact hinv p hp w hw
      · rw [List.mem_singleton] at hp
        subst hp
        dsimp only at hw
        exact hsel w hw
    | reorder id newOrder p hp hpid hsub =>
      intro q hq w hw
      rw [handleReorderPlaylist_playlists, List.mem_map] at hq
      rw [handleReorderPlaylist_videos]
      obtain ⟨q0, hq0, rfl⟩ := hq
      by_cases hcase : q0.id = id
      · rw [if_pos hcase] at hw
        dsimp only at hw
        exact hinv p hp w (hsub w hw)
      · rw [if_neg hcase] at hw
        exact hinv q0 hq0 w hw
    | delete v =>
      intro q hq w hw
      rw [handleVideoDelete_playlists, List.mem_map] at hq
      rw [handleVideoDelete_videos]
      obtain ⟨q0, hq0, rfl⟩ := hq
      dsimp only at hw
      rw [List.mem_filter] at hw
      obtain ⟨hw0, hwne⟩ := hw
      obtain ⟨u, hu, hid⟩ := hinv q0 hq0 w hw0
      refine ⟨u, ?_, hid⟩
      rw [List.mem_filter]
      refine ⟨hu, ?_⟩
      simp only [decide_eq_true_iff] at hwne ⊢
      rw [hid]
      exact hwne

theorem ref_integrity_invariant_witness :
    refIntegrity (handleVideoAdd initialState vidA) = true :=
  ref_integrity_invariant.2 initialState (handleVideoAdd initialState vidA)
    (Step.add initialState vidA) (by decide)

/-! ## Claim C2: merge-mode ordering isolation -/

/-- The truthy id an entry contributes to the merge / replace loops
(`if (!p?.id) continue`). -/
def keptId (p : PlaylistIn) : Option String :=
  match p.id with
  | some i => if i ≠ "" then some i else none
  | none => none

theorem keptPlaylistIds_eq (ps : List PlaylistIn) :
    keptPlaylistIds ps = ps.filterMap keptId := rfl

/-- The ordering rows of one playlist. -/
def pvFor (db : DB) (pid : String) : List PVRow :=
  db.playlist_videos.filter (fun r => r.playlist_id = pid)

theorem pvFor_eq_of_pv_eq {db1 db2 : DB}
    (h : db1.playlist_videos = db2.playlist_videos) (pid : String) :
    pvFor db1 pid = pvFor db2 pid := by
  unfold pvFor
  rw [h]

theorem keptId_eq_some (q : PlaylistIn) (i : String) :
    keptId q = some i ↔ q.id = some i ∧ i ≠ "" := by
  unfold keptId
  cases hq : q.id with
  | none => simp
  | some j =>
    dsimp only
    by_cases h : j = ""
    · subst h
      simp
      exact fun hh => hh.symm
    · rw [if_pos h]
      simp only [Option.some.injEq]
      constructor
      · rintro rfl
        exact ⟨rfl, h⟩
      · rintro ⟨rfl, _⟩
        rfl

theorem pvRows_playlist_id (i : String) (vids : List VidRef) :
    ∀ r ∈ pvRows i vids, r.playlist_id = i := by
  intro r hr
  unfold pvRows at hr
  rw [List.mem_map] at hr
  obtain ⟨x, _, rfl⟩ := hr
  rfl

theorem mergePlaylistStep_pv_skip (db : DB) (q : PlaylistIn)
    (h : keptId q = none) :
    (mergePlaylistStep db q).playlist_videos = db.playlist_videos := by
  unfold mergePlaylistStep
  unfold keptId at h
  cases hq : q.id with
  | none => rfl
  | some i =>
    rw [hq] at h
    dsimp only at h ⊢
    by_cases hi : i = ""
    · rw [if_pos hi]
    · rw [if_pos hi] at h
      exact absurd h (by simp)

theorem mergePlaylistStep_pv_noVideos (db : DB) (q : PlaylistIn) (i : String)
    (h : keptId q = some i) (hv : q.videos = none) :
    (mergePlaylistStep db q).playlist_videos = db.playlist_videos := by
  obtain ⟨hid, hne⟩ := (keptId_eq_some q i).mp h
  unfold mergePlaylistStep
  rw [hid]
  dsimp only
  rw [if_neg hne, hv]

theorem mergePlaylistStep_pv_withVideos (db : DB) (q : PlaylistIn)
    (i : String) (vids : List VidRef)
    (h : keptId q = some i) (hv : q.videos = some vids) :
    (mergePlaylistStep db q).playlist_videos =
      db.playlist_videos.filter (fun r => r.playlist_id ≠ i) ++ pvRows i vids := by
  obtain ⟨hid, hne⟩ := (keptId_eq_some q i).mp h
  unfold mergePlaylistStep
  rw [hid]
  dsimp only
  rw [if_neg hne, hv]

theorem filter_eq_of_ne (l : List PVRow) (i pid : String) (hne : i ≠ pid) :
    (l.filter (fun r => r.playlist_id ≠ i)).filter (fun r => r.playlist_id = pid) =
      l.filter (fun r => r.playlist_id = pid) := by
  rw [List.filter_filter]
  apply List.filter_congr
  intro r _
  by_cases h : r.playlist_id = pid
  · have hri : r.playlist_id ≠ i := by
      rw [h]
      exact fun hc => hne hc.symm
    simp [h, hri]
    exact fun hc => hne hc.symm
  · simp [h]

theorem filter_pvRows_other (i pid : String) (vids : List VidRef)
    (hne : i ≠ pid) :
    (pvRows i vids).filter (fun r => r.playlist_id = pid) = [] := by
  rw [List.filter_eq_nil_iff]
  intro r hr
  have := pvRows_playlist_id i vids r hr
  simp only [decide_eq_true_iff]
  rw [this]
  exact hne

theorem filter_pvRows_self (pid : String) (vids : List VidRef) :
    (pvRows pid vids).filter (fun r => r.playlist_id = pid) = pvRows pid vids := by
  rw [List.filter_eq_self]
  intro r hr
  simp only [decide_eq_true_iff]
  exact pvRows_playlist_id pid vids r hr

theorem pvFor_step_untouched (db : DB) (q : PlaylistIn) (pid : String)
    (h : keptId q = some pid → q.videos = none) :
    pvFor (mergePlaylistStep db q) pid = pvFor db pid := by
  cases hk : keptId q with
  | none => rw [pvFor_eq_of_pv_eq (mergePlaylistStep_pv_skip db q hk)]
  | some i =>
    cases hv : q.videos with
    | none => rw [pvFor_eq_of_pv_eq (mergePlaylistStep_pv_noVideos db q i hk hv)]
    | some vids =>
      have hne : i ≠ pid := by
        rintro rfl
        rw [h hk] at hv
        cases hv
      unfold pvFor
      rw [mergePlaylistStep_pv_withVideos db q i vids hk hv,
        List.filter_append, filter_eq_of_ne _ _ _ hne,
        filter_pvRows_other _ _ _ hne, List.append_nil]

theorem pvFor_step_replaced (db : DB) (q : PlaylistIn) (pid : String)
    (vids : List VidRef)
    (hk : keptId q = some pid) (hv : q.videos = some vids) :
    pvFor (mergePlaylistStep db q) pid = pvRows pid vids := by
  unfold pvFor
  rw [mergePlaylistStep_pv_withVideos db q pid vids hk hv, List.filter_append,
    filter_pvRows_self, List.filter_filter]
  have hnil : (db.playlist_videos.filter
      (fun r => decide (r.playlist_id = pid) && decide (r.playlist_id ≠ pid))) = [] := by
    rw [List.filter_eq_nil_iff]
    intro r _
    by_cases h : r.playlist_id = pid <;> simp [h]
  rw [hnil, List.nil_append]

theorem mem_keptPlaylistIds (ps : List PlaylistIn) (p : PlaylistIn) (i : String)
    (hp : p ∈ ps) (hk : keptId p = some i) : i ∈ keptPlaylistIds ps := by
  rw [keptPlaylistIds_eq]
  exact List.mem_filterMap.mpr ⟨p, hp, hk⟩

theorem pvFor_foldl_untouched (ps : List PlaylistIn) (db : DB) (pid : String)
    (h : ∀ p ∈ ps, keptId p = some pid → p.videos = none) :
    pvFor (ps.foldl mergePlaylistStep db) pid = pvFor db pid := by
  induction ps generalizing db with
  | nil => rfl
  | cons q rest ih =>
    rw [List.foldl_cons,
      ih _ (fun p hp => h p (List.mem_cons_of_mem q hp))]
    exact pvFor_step_untouched db q pid (h q (List.mem_cons_self q rest))

theorem nodup_keptPlaylistIds_tail {q : PlaylistIn} {rest : List PlaylistIn}
    (hnd : (keptPlaylistIds (q :: rest)).Nodup) :
    (keptPlaylistIds rest).Nodup := by
  rw [keptPlaylistIds_eq, List.filterMap_cons] at hnd
  cases hk : keptId q with
  | none =>
    rw [hk] at hnd
    rw [keptPlaylistIds_eq]
    exact hnd
  | some i =>
    rw [hk] at hnd
    rw [keptPlaylistIds_eq]
    exact hnd.of_cons

theorem pvFor_foldl_replaced (ps : List PlaylistIn) (db : DB) (pid : String)
    (vids : List VidRef) (hnd : (keptPlaylistIds ps).Nodup)
    (hmem : ∃ p ∈ ps, keptId p = some pid ∧ p.videos = some vids) :
    pvFor (ps.foldl mergePlaylistStep db) pid = pvRows pid vids := by
  induction ps generalizing db with
  | nil =>
    obtain ⟨p, hp, _⟩ := hmem
    cases hp
  | cons q rest ih =>
    obtain ⟨p, hp, hkp, hvp⟩ := hmem
    rw [List.foldl_cons]
    rcases List.mem_cons.mp hp with rfl | hp'
    · have hrest : ∀ e ∈ rest, keptId e = some pid → e.videos = none := by
        intro e he hke
        exfalso
        rw [keptPlaylistIds_eq, List.filterMap_cons, hkp] at hnd
        exact (List.nodup_cons.mp hnd).1
          (by rw [← keptPlaylistIds_eq]; exact mem_keptPlaylistIds rest e pid he hke)
      rw [pvFor_foldl_untouched rest _ pid hrest]
      exact pvFor_step_replaced db p pid vids hkp hvp
    · exact ih _ (nodup_keptPlaylistIds_tail hnd) ⟨p, hp', hkp, hvp⟩

theorem mergeVideoStep_pv (db : DB) (v : VideoIn) :
    (mergeVideoStep db v).playlist_videos = db.playlist_videos := rfl

theorem foldl_mergeVideoStep_pv (vs : List VideoIn) (db : DB) :
    (vs.foldl mergeVideoStep db).playlist_videos = db.playlist_videos := by
  induction vs generalizing db with
  | nil => rfl
  | cons v rest ih => rw [List.foldl_cons, ih, mergeVideoStep_pv]

theorem onRequestPut_fuse_eq (db : DB) (body : PutBody)
    (hmode : modeOf body.mode = Mode.merge)
    (hv : body.videos.getD [] = []) (hpl : body.playlists.getD [] = []) :
    (onRequestPut db body).1 = db := by
  unfold onRequestPut
  rw [hmode, hv, hpl]
  dsimp only
  rw [if_pos (by exact ⟨by decide, rfl, rfl⟩)]
  split <;> rfl

theorem onRequestPut_merge_eq (db : DB) (body : PutBody)
    (hmode : modeOf body.mode = Mode.merge)
    (hne : ¬ (body.videos.getD [] = [] ∧ body.playlists.getD [] = [])) :
    (onRequestPut db body).1 =
      mergePut db (body.videos.getD []) (body.playlists.getD []) := by
  unfold onRequestPut
  rw [hmode]
  dsimp only
  rw [if_neg (by rintro ⟨-, h1, h2⟩; exact hne ⟨h1, h2⟩),
    if_neg (by decide)]

/-- Claim C2: in a merge-mode PUT the only `playlist_videos` rows modified
are those of playlists whose payload entry includes a `videos` array — a
playlist whose entry lacks `videos`, or which is omitted from the payload
altogether, keeps its existing ordering rows, while an entry that carries
`videos` fully replaces exactly that playlist's ordering rows (payload
entries assumed to carry pairwise-distinct kept ids for the replacement
part). -/
theorem merge_put_ordering_isolation
    (db : DB) (body : PutBody) (pid : String)
    (hmode : modeOf body.mode = Mode.merge) :
    ((∀ p ∈ body.playlists.getD [], keptId p = some pid → p.videos = none) →
      pvFor (onRequestPut db body).1 pid = pvFor db pid) ∧
    (∀ vids : List VidRef,
      (keptPlaylistIds (body.playlists.getD [])).Nodup →
      (∃ p ∈ body.playlists.getD [], keptId p = some pid ∧ p.videos = some vids) →
      pvFor (onRequestPut db body).1 pid = pvRows pid vids) := by
  constructor
  · intro h
    by_cases hempty : body.videos.getD [] = [] ∧ body.playlists.getD [] = []
    · rw [onRequestPut_fuse_eq db body hmode hempty.1 hempty.2]
    · rw [onRequestPut_merge_eq db body hmode hempty]
      unfold mergePut
      rw [pvFor_foldl_untouched _ _ _ h]
      exact pvFor_eq_of_pv_eq (foldl_mergeVideoStep_pv _ db) pid
  · intro vids hnd hmem
    have hne : ¬ (body.videos.getD [] = [] ∧ body.playlists.getD [] = []) := by
      rintro ⟨-, h2⟩
      obtain ⟨p, hp, -⟩ := hmem
      rw [h2] at hp
      cases hp
    rw [onRequestPut_merge_eq db body hmode hne]
    unfold mergePut
    exact pvFor_foldl_replaced _ _ _ _ hnd hmem

def dbTwoPl : DB :=
  ⟨[], [⟨"P1", "P1", "", "", ""⟩, ⟨"P2", "P2", "", "", ""⟩],
    [⟨"P1", "A", 0⟩, ⟨"P2", "B", 0⟩]⟩

def mergeOnlyP1Body : PutBody :=
  ⟨none, some [], some [⟨some "P1", some "P1", some "", some "", some "",
    some [VidRef.vstr "B", VidRef.vstr "A"]⟩]⟩

theorem merge_put_ordering_isolation_witness :
    ((∀ p ∈ mergeOnlyP1Body.playlists.getD [],
        keptId p = some "P2" → p.videos = none) →
      pvFor (onRequestPut dbTwoPl mergeOnlyP1Body).1 "P2" = pvFor dbTwoPl "P2") ∧
    (∀ vids : List VidRef,
      (keptPlaylistIds (mergeOnlyP1Body.playlists.getD [])).Nodup →
      (∃ p ∈ mergeOnlyP1Body.playlists.getD [],
        keptId p = some "P2" ∧ p.videos = some vids) →
      pvFor (onRequestPut dbTwoPl mergeOnlyP1Body).1 "P2" = pvRows "P2" vids) :=
  merge_put_ordering_isolation dbTwoPl mergeOnlyP1Body "P2" (by decide)

/-! ## Claim C10: what a background (mode-less) snapshot push can delete -/

def plP1 : Playlist := ⟨"P1", "P1", "", [], "", none⟩

def dbC10 : DB := ⟨[], [⟨"P1", "P1", "", "", ""⟩], [⟨"P1", "A", 0⟩]⟩

/-- Claim C10 counterexample: the debounced background save is merge-mode
(no `mode` field), yet it does delete remote rows — pushing a snapshot in
which playlist `P1` has an empty `videos` list deletes `P1`'s existing
`playlist_videos` ordering row. -/
theorem background_save_deletes_pv_counterexample :
    modeOf (saveRemoteBody [] [plP1]).mode = Mode.merge ∧
    (⟨"P1", "A", 0⟩ : PVRow) ∈ dbC10.playlist_videos ∧
    (⟨"P1", "A", 0⟩ : PVRow) ∉
      (onRequestPut dbC10 (saveRemoteBody [] [plP1])).1.playlist_videos := by
  decide

theorem upsertVideo_ids (tbl : List VideoRow) (v : VideoIn) (i : String)
    (h : i ∈ tbl.map VideoRow.id) : i ∈ (upsertVideo tbl v).map VideoRow.id := by
  unfold upsertVideo
  cases v.id with
  | none => exact h
  | some j =>
    dsimp only
    by_cases hj : j = ""
    · rw [if_pos hj]
      exact h
    · rw [if_neg hj]
      by_cases hany : (tbl.any (fun r => r.id = j)) = true
      · rw [if_pos hany]
        have hids : (tbl.map (fun r => if r.id = j then mkVideoRow j v else r)).map
            VideoRow.id = tbl.map VideoRow.id := by
          rw [List.map_map]
          apply List.map_congr_left
          intro r _
          by_cases hr : r.id = j
          · simp [Function.comp, hr, mkVideoRow]
          · simp [Function.comp, hr]
        rw [hids]
        exact h
      · rw [if_neg hany, List.map_append]
        exact List.mem_append_left _ h

theorem upsertPlaylistRow_ids (tbl : List PlaylistRow) (j : String)
    (p : PlaylistIn) (i : String) (h : i ∈ tbl.map PlaylistRow.id) :
    i ∈ (upsertPlaylistRow tbl j p).map PlaylistRow.id := by
  unfold upsertPlaylistRow
  by_cases hany : (tbl.any (fun r => r.id = j)) = true
  · rw [if_pos hany]
    have hids : (tbl.map (fun r => if r.id = j then mkPlaylistRow j p else r)).map
        PlaylistRow.id = tbl.map PlaylistRow.id := by
      rw [List.map_map]
      apply List.map_congr_left
      intro r _
      by_cases hr : r.id = j
      · simp [Function.comp, hr, mkPlaylistRow]
      · simp [Function.comp, hr]
    rw [hids]
    exact h
  · rw [if_neg hany, List.map_append]
    exact List.mem_append_left _ h

theorem mergePlaylistStep_videos_table (db : DB) (p : PlaylistIn) :
    (mergePlaylistStep db p).videos = db.videos := by
  unfold mergePlaylistStep
  cases p.id with
  | none => rfl
  | some i =>
    dsimp only
    by_cases h : i = ""
    · rw [if_pos h]
    · rw [if_neg h]
      cases p.videos <;> rfl

theorem foldl_mergePlaylistStep_videos_table (ps : List PlaylistIn) (db : DB) :
    (ps.foldl mergePlaylistStep db).videos = db.videos := by
  induction ps generalizing db with
  | nil => rfl
  | cons p rest ih => rw [List.foldl_cons, ih, mergePlaylistStep_videos_table]

theorem foldl_mergeVideoStep_video_ids (vs : List VideoIn) (db : DB) (i : String)
    (h : i ∈ db.videos.map VideoRow.id) :
    i ∈ (vs.foldl mergeVideoStep db).videos.map VideoRow.id := by
  induction vs generalizing db with
  | nil => exact h
  | cons v rest ih =>
    rw [List.foldl_cons]
    exact ih _ (upsertVideo_ids db.videos v i h)

theorem foldl_mergeVideoStep_playlists (vs : List VideoIn) (db : DB) :
    (vs.foldl mergeVideoStep db).playlists = db.playlists := by
  induction vs generalizing db with
  | nil => rfl
  | cons v rest ih =>
    rw [List.foldl_cons, ih]
    rfl

theorem mergePlaylistStep_playlist_ids (db : DB) (p : PlaylistIn) (i : String)
    (h : i ∈ db.playlists.map PlaylistRow.id) :
    i ∈ (mergePlaylistStep db p).playlists.map PlaylistRow.id := by
  unfold mergePlaylistStep
  cases p.id with
  | none => exact h
  | some j =>
    dsimp only
    by_cases hj : j = ""
    · rw [if_pos hj]
      exact h
    · rw [if_neg hj]
      cases p.videos with
      | none => exact upsertPlaylistRow_ids db.playlists j p i h
      | some vids => exact upsertPlaylistRow_ids db.playlists j p i h

theorem foldl_mergePlaylistStep_playlist_ids (ps : List PlaylistIn) (db : DB)
    (i : String) (h : i ∈ db.playlists.map PlaylistRow.id) :
    i ∈ (ps.foldl mergePlaylistStep db).playlists.map PlaylistRow.id := by
  induction ps generalizing db with
  | nil => exact h
  | cons p rest ih =>
    rw [List.foldl_cons]
    exact ih _ (mergePlaylistStep_playlist_ids db p i h)

/-- Claim C10 (amended): the debounced background save sends the snapshot
without a `mode` field and the server treats every request whose mode is
not exactly `"replace"` as merge mode; consequently a background
full-snapshot push never deletes a row from the `videos` or `playlists`
tables — videos and playlists deleted locally keep their remote rows —
though it does rewrite (delete and reinsert) the `playlist_videos`
ordering rows of every playlist included in the snapshot. -/
theorem background_save_merge_preserves_tables
    (db : DB) (videos : List Video) (playlists : List Playlist) :
    (saveRemoteBody videos playlists).mode = none ∧
    (∀ m, m ≠ some "replace" → modeOf m = Mode.merge) ∧
    (∀ r ∈ db.videos,
      r.id ∈ (onRequestPut db (saveRemoteBody videos playlists)).1.videos.map
        VideoRow.id) ∧
    (∀ r ∈ db.playlists,
      r.id ∈ (onRequestPut db (saveRemoteBody videos playlists)).1.playlists.map
        PlaylistRow.id) := by
  have hmode : modeOf (saveRemoteBody videos playlists).mode = Mode.merge := rfl
  have hdb : (onRequestPut db (saveRemoteBody videos playlists)).1 = db ∨
      (onRequestPut db (saveRemoteBody videos playlists)).1 =
        mergePut db ((saveRemoteBody videos playlists).videos.getD [])
          ((saveRemoteBody videos playlists).playlists.getD []) := by
    by_cases hempty : (saveRemoteBody videos playlists).videos.getD [] = [] ∧
        (saveRemoteBody videos playlists).playlists.getD [] = []
    · exact Or.inl (onRequestPut_fuse_eq _ _ hmode hempty.1 hempty.2)
    · exact Or.inr (onRequestPut_merge_eq _ _ hmode hempty)
  refine ⟨rfl, fun m hm => ?_, fun r hr => ?_, fun r hr => ?_⟩
  · unfold modeOf
    rw [if_neg hm]
  · rcases hdb with h | h <;> rw [h]
    · exact List.mem_map.mpr ⟨r, hr, rfl⟩
    · unfold mergePut
      rw [foldl_mergePlaylistStep_videos_table]
      exact foldl_mergeVideoStep_video_ids _ _ _ (List.mem_map.mpr ⟨r, hr, rfl⟩)
  · rcases hdb with h | h <;> rw [h]
    · exact List.mem_map.mpr ⟨r, hr, rfl⟩
    · unfold mergePut
      apply foldl_mergePlaylistStep_playlist_ids
      rw [foldl_mergeVideoStep_playlists]
      exact List.mem_map.mpr ⟨r, hr, rfl⟩

theorem background_save_merge_preserves_tables_witness :
    (saveRemoteBody [] [plP1]).mode = none ∧
    (∀ m, m ≠ some "replace" → modeOf m = Mode.merge) ∧
    (∀ r ∈ dbC10.videos,
      r.id ∈ (onRequestPut dbC10 (saveRemoteBody [] [plP1])).1.videos.map
        VideoRow.id) ∧
    (∀ r ∈ dbC10.playlists,
      r.id ∈ (onRequestPut dbC10 (saveRemoteBody [] [plP1])).1.playlists.map
        PlaylistRow.id) :=
  background_save_merge_preserves_tables dbC10 [] [plP1]

end Playlister
